import Mathlib

/-!
Shallow embedding of `main.py` of astrbot_plugin_netease_music_pro_max.

The plugin keeps two Python dicts as shared state:
  `self.waiting_users : Dict[user_key, {"key": cache_key, "expire": float}]`
  `self.song_cache   : Dict[cache_key, List[song]]`
We embed a Python dict as an association list `List (String × β)` with the
dict operations `dictGet` (`d.get(k)` / `d[k]`), `dictInsert` (`d[k] = v`,
replacing in place, preserving insertion order like CPython) and
`dictErase` (`del d[k]`).  Timestamps (`time.time()`) are modelled as `Nat`
seconds; only the strict/non-strict direction of the comparisons matters
for the claims, which is unchanged by this choice.
-/

namespace Netease

/-- `d.get(k)` on a Python dict modelled as an association list. -/
def dictGet {β : Type} (k : String) : List (String × β) → Option β
  | [] => none
  | (k', v) :: t => if k' = k then some v else dictGet k t

/-- `d[k] = v` on a Python dict: replace the value in place if the key is
present, otherwise append the new binding (CPython insertion order). -/
def dictInsert {β : Type} (k : String) (v : β) : List (String × β) → List (String × β)
  | [] => [(k, v)]
  | (k', v') :: t => if k' = k then (k, v) :: t else (k', v') :: dictInsert k v t

/-- `del d[k]` on a Python dict (removes the binding for `k`). -/
def dictErase {β : Type} (k : String) (l : List (String × β)) : List (String × β) :=
  l.filter (fun p => decide (p.1 ≠ k))

/-- Well-formedness of the dict representation: keys are pairwise distinct. -/
def dictWF {β : Type} (l : List (String × β)) : Prop :=
  (l.map Prod.fst).Nodup

instance {β : Type} (l : List (String × β)) : Decidable (dictWF l) :=
  inferInstanceAs (Decidable (l.map Prod.fst).Nodup)

theorem dictErase_cons {β : Type} (k k₀ : String) (v₀ : β) (t : List (String × β)) :
    dictErase k ((k₀, v₀) :: t) =
      if k₀ = k then dictErase k t else (k₀, v₀) :: dictErase k t := by
  by_cases h : k₀ = k <;> simp [dictErase, List.filter_cons, h]

theorem dictGet_insert_self {β : Type} (k : String) (v : β) (l : List (String × β)) :
    dictGet k (dictInsert k v l) = some v := by
  induction l with
  | nil => simp [dictInsert, dictGet]
  | cons p t ih =>
    obtain ⟨k', v'⟩ := p
    by_cases h : k' = k
    · simp [dictInsert, h, dictGet]
    · simp [dictInsert, h, dictGet, ih]

theorem dictGet_insert_ne {β : Type} (k k' : String) (v : β) (l : List (String × β))
    (h : k' ≠ k) : dictGet k' (dictInsert k v l) = dictGet k' l := by
  have h' : ¬ k = k' := fun hh => h hh.symm
  induction l with
  | nil => simp [dictInsert, dictGet, h']
  | cons p t ih =>
    obtain ⟨k₀, v₀⟩ := p
    by_cases hk : k₀ = k
    · subst hk
      simp [dictInsert, dictGet, h']
    · simp only [dictInsert, if_neg hk, dictGet]
      split
      · rfl
      · exact ih

theorem dictGet_erase_self {β : Type} (k : String) (l : List (String × β)) :
    dictGet k (dictErase k l) = none := by
  induction l with
  | nil => simp [dictErase, dictGet]
  | cons p t ih =>
    obtain ⟨k₀, v₀⟩ := p
    rw [dictErase_cons]
    by_cases h : k₀ = k
    · simpa [h] using ih
    · simpa [dictGet, h] using ih

theorem dictGet_erase_ne {β : Type} (k k' : String) (l : List (String × β))
    (h : k' ≠ k) : dictGet k' (dictErase k l) = dictGet k' l := by
  induction l with
  | nil => simp [dictErase, dictGet]
  | cons p t ih =>
    obtain ⟨k₀, v₀⟩ := p
    rw [dictErase_cons]
    by_cases hk : k₀ = k
    · subst hk
      have h' : ¬ k₀ = k' := fun hh => h hh.symm
      simpa [dictGet, h'] using ih
    · simp only [if_neg hk, dictGet]
      split
      · rfl
      · exact ih

theorem dictGet_none_erase {β : Type} (k k' : String) (l : List (String × β))
    (h : dictGet k' l = none) : dictGet k' (dictErase k l) = none := by
  by_cases hk : k' = k
  · rw [hk]; exact dictGet_erase_self k l
  · rw [dictGet_erase_ne k k' l hk]; exact h

theorem keys_dictInsert {β : Type} (k : String) (v : β) (l : List (String × β)) :
    (dictInsert k v l).map Prod.fst =
      if k ∈ l.map Prod.fst then l.map Prod.fst else l.map Prod.fst ++ [k] := by
  induction l with
  | nil => simp [dictInsert]
  | cons p t ih =>
    obtain ⟨k₁, v₁⟩ := p
    by_cases hk : k₁ = k
    · subst hk
      simp [dictInsert]
    · simp only [dictInsert, if_neg hk, List.map_cons, ih]
      by_cases hm : k ∈ t.map Prod.fst
      · have hmem : k ∈ (k₁ :: t.map Prod.fst) := List.mem_cons_of_mem _ hm
        simp [hm, hmem]
      · have hne : ¬ k ∈ (k₁ :: t.map Prod.fst) := by
          intro hc
          rcases List.mem_cons.1 hc with h1 | h1
          · exact hk h1.symm
          · exact hm h1
        simp [hm, hne]

theorem dictWF_insert {β : Type} (k : String) (v : β) (l : List (String × β))
    (h : dictWF l) : dictWF (dictInsert k v l) := by
  rw [dictWF] at h
  rw [dictWF, keys_dictInsert]
  by_cases hm : k ∈ l.map Prod.fst
  · simpa [hm] using h
  · simp only [if_neg hm]
    rw [List.nodup_append]
    refine ⟨h, List.nodup_singleton k, ?_⟩
    intro a ha hb
    rw [List.mem_singleton] at hb
    subst hb
    exact hm ha

theorem map_fst_dictErase {β : Type} (k : String) (l : List (String × β)) :
    (dictErase k l).map Prod.fst = (l.map Prod.fst).filter (fun x => decide (x ≠ k)) := by
  induction l with
  | nil => rfl
  | cons p t ih =>
    obtain ⟨k₀, v₀⟩ := p
    rw [dictErase_cons]
    by_cases h : k₀ = k <;> simp [h, List.filter_cons, ih]

theorem dictWF_erase {β : Type} (k : String) (l : List (String × β))
    (h : dictWF l) : dictWF (dictErase k l) := by
  rw [dictWF, map_fst_dictErase]
  exact h.filter _

theorem dictGet_mem {β : Type} (k : String) (v : β) (l : List (String × β))
    (h : dictGet k l = some v) : (k, v) ∈ l := by
  induction l with
  | nil => simp [dictGet] at h
  | cons p t ih =>
    obtain ⟨k₀, v₀⟩ := p
    by_cases hk : k₀ = k
    · subst hk
      simp [dictGet] at h
      simp [h]
    · simp only [dictGet, if_neg hk] at h
      exact List.mem_cons_of_mem _ (ih h)

theorem mem_dictGet_of_wf {β : Type} (k : String) (v : β) (l : List (String × β))
    (hwf : dictWF l) (h : (k, v) ∈ l) : dictGet k l = some v := by
  induction l with
  | nil => simp at h
  | cons p t ih =>
    obtain ⟨k₀, v₀⟩ := p
    rw [dictWF, List.map_cons, List.nodup_cons] at hwf
    rcases List.mem_cons.1 h with h1 | h2
    · cases h1
      simp [dictGet]
    · have hne : ¬ k₀ = k := by
        intro hEq
        subst hEq
        exact hwf.1 (List.mem_map.2 ⟨(k₀, v), h2, rfl⟩)
      rw [dictGet, if_neg hne]
      exact ih hwf.2 h2

/-!
Decimal rendering of a natural number, as Python's `str(int(...))` /
f-string interpolation produces it.  Written with explicit structural fuel
so that the kernel can evaluate it on concrete inputs.
-/

/-- The decimal digit character for `d < 10`. -/
def digitChar : Nat → Char
  | 0 => '0' | 1 => '1' | 2 => '2' | 3 => '3' | 4 => '4'
  | 5 => '5' | 6 => '6' | 7 => '7' | 8 => '8' | _ => '9'

/-- Little-endian decimal digits of `n`, with structural fuel (`fuel ≥ n`
suffices for a complete rendering). -/
def digitsRevAux : Nat → Nat → List Nat
  | _, 0 => []
  | 0, _ + 1 => []
  | fuel + 1, n + 1 => ((n + 1) % 10) :: digitsRevAux fuel ((n + 1) / 10)

/-- Little-endian decimal digits of `n`. -/
def digitsRev (n : Nat) : List Nat := digitsRevAux n n

/-- Value of a little-endian digit list (left inverse of `digitsRev`). -/
def valRev : List Nat → Nat
  | [] => 0
  | d :: ds => d + 10 * valRev ds

/-- Decimal string of a natural number, matching Python's `str`. -/
def natStr (n : Nat) : String :=
  if n = 0 then "0" else String.mk (((digitsRev n).map digitChar).reverse)

theorem valRev_digitsRevAux (fuel n : Nat) (h : n ≤ fuel) :
    valRev (digitsRevAux fuel n) = n := by
  induction fuel generalizing n with
  | zero =>
    interval_cases n
    rfl
  | succ f ih =>
    match n with
    | 0 => rfl
    | m + 1 =>
      have hdiv : (m + 1) / 10 ≤ f := by
        have h1 : (m + 1) / 10 < m + 1 := Nat.div_lt_self (Nat.succ_pos m) (by norm_num)
        omega
      rw [digitsRevAux, valRev, ih _ hdiv, Nat.add_comm, Nat.div_add_mod]

theorem valRev_digitsRev (n : Nat) : valRev (digitsRev n) = n :=
  valRev_digitsRevAux n n (Nat.le_refl n)

theorem digitsRevAux_lt (fuel n : Nat) : ∀ d ∈ digitsRevAux fuel n, d < 10 := by
  induction fuel generalizing n with
  | zero =>
    match n with
    | 0 => intro d hd; simp [digitsRevAux] at hd
    | m + 1 => intro d hd; simp [digitsRevAux] at hd
  | succ f ih =>
    match n with
    | 0 => intro d hd; simp [digitsRevAux] at hd
    | m + 1 =>
      intro d hd
      rw [digitsRevAux] at hd
      rcases List.mem_cons.1 hd with h1 | h2
      · subst h1; exact Nat.mod_lt _ (by norm_num)
      · exact ih _ d h2

theorem digitChar_inj (d₁ d₂ : Nat) (h₁ : d₁ < 10) (h₂ : d₂ < 10)
    (h : digitChar d₁ = digitChar d₂) : d₁ = d₂ := by
  interval_cases d₁ <;> interval_cases d₂ <;> simp_all [digitChar]

theorem digitChar_ne_underscore (d : Nat) : digitChar d ≠ '_' := by
  match d with
  | 0 => decide
  | 1 => decide
  | 2 => decide
  | 3 => decide
  | 4 => decide
  | 5 => decide
  | 6 => decide
  | 7 => decide
  | 8 => decide
  | n + 9 => exact (by decide : ('9' : Char) ≠ '_')

theorem map_digitChar_inj : ∀ (l₁ l₂ : List Nat), (∀ d ∈ l₁, d < 10) →
    (∀ d ∈ l₂, d < 10) → l₁.map digitChar = l₂.map digitChar → l₁ = l₂
  | [], [], _, _, _ => rfl
  | [], _ :: _, _, _, h => by simp at h
  | _ :: _, [], _, _, h => by simp at h
  | a :: t, b :: s, h₁, h₂, h => by
    simp only [List.map_cons, List.cons.injEq] at h
    have ha : a = b :=
      digitChar_inj a b (h₁ a (List.mem_cons_self a t)) (h₂ b (List.mem_cons_self b s)) h.1
    have ht : t = s :=
      map_digitChar_inj t s (fun d hd => h₁ d (List.mem_cons_of_mem _ hd))
        (fun d hd => h₂ d (List.mem_cons_of_mem _ hd)) h.2
    rw [ha, ht]

theorem natStr_no_underscore (n : Nat) : '_' ∉ (natStr n).data := by
  rw [natStr]
  split
  · decide
  · intro hc
    rw [List.mem_reverse] at hc
    rcases List.mem_map.1 hc with ⟨d, _, hd⟩
    exact digitChar_ne_underscore d hd

theorem natStr_inj (m n : Nat) (h : natStr m = natStr n) : m = n := by
  have hdata : (natStr m).data = (natStr n).data := by rw [h]
  by_cases hm : m = 0 <;> by_cases hn : n = 0
  · rw [hm, hn]
  · exfalso
    rw [natStr, natStr, if_pos hm, if_neg hn] at hdata
    have : ((digitsRev n).map digitChar).reverse = ['0'] := hdata.symm
    have hmap : (digitsRev n).map digitChar = ['0'] := by
      have := congrArg List.reverse this
      simpa using this
    have hdig : digitsRev n = [0] := by
      have h10 : (0 : Nat) < 10 := by norm_num
      have := map_digitChar_inj (digitsRev n) [0]
        (digitsRevAux_lt n n) (by intro d hd; simp at hd; omega)
        (by rw [hmap]; rfl)
      exact this
    have : n = 0 := by
      have hv := valRev_digitsRev n
      rw [hdig] at hv
      simpa [valRev] using hv.symm
    exact hn this
  · exfalso
    rw [natStr, natStr, if_neg hm, if_pos hn] at hdata
    have hmap : (digitsRev m).map digitChar = ['0'] := by
      have := congrArg List.reverse hdata
      simpa using this
    have hdig : digitsRev m = [0] := by
      have := map_digitChar_inj (digitsRev m) [0]
        (digitsRevAux_lt m m) (by intro d hd; simp at hd; omega)
        (by rw [hmap]; rfl)
      exact this
    have : m = 0 := by
      have hv := valRev_digitsRev m
      rw [hdig] at hv
      simpa [valRev] using hv.symm
    exact hm this
  · rw [natStr, natStr, if_neg hm, if_neg hn] at hdata
    have hrev : ((digitsRev m).map digitChar).reverse = ((digitsRev n).map digitChar).reverse := hdata
    have hmap : (digitsRev m).map digitChar = (digitsRev n).map digitChar := by
      have := congrArg List.reverse hrev
      simpa using this
    have hdig : digitsRev m = digitsRev n :=
      map_digitChar_inj _ _ (digitsRevAux_lt m m) (digitsRevAux_lt n n) hmap
    have := congrArg valRev hdig
    rwa [valRev_digitsRev, valRev_digitsRev] at this

/-!
The cache key of a search invocation:
`cache_key = f"{user_key}_{int(time.time())}"` (main.py line 361).
-/

/-- `f"{user_key}_{int(time.time())}"` with `now` the integer-second clock. -/
def mkCacheKey (user_key : String) (now : Nat) : String :=
  user_key ++ "_" ++ natStr now

/-- Splitting at the last separator: if the part after the shown `'_'` is
separator-free on both sides, the decomposition is unique. -/
theorem append_underscore_inj (xs₁ ys₁ xs₂ ys₂ : List Char)
    (hy₁ : '_' ∉ ys₁) (hy₂ : '_' ∉ ys₂)
    (h : xs₁ ++ '_' :: ys₁ = xs₂ ++ '_' :: ys₂) : xs₁ = xs₂ ∧ ys₁ = ys₂ := by
  induction xs₁ generalizing xs₂ with
  | nil =>
    cases xs₂ with
    | nil =>
      simp only [List.nil_append, List.cons.injEq] at h
      exact ⟨rfl, h.2⟩
    | cons c t =>
      exfalso
      simp only [List.nil_append, List.cons_append, List.cons.injEq] at h
      have : '_' ∈ t ++ '_' :: ys₂ := by
        simp
      rw [← h.2] at this
      exact hy₁ this
  | cons a r ih =>
    cases xs₂ with
    | nil =>
      exfalso
      simp only [List.cons_append, List.nil_append, List.cons.injEq] at h
      have : '_' ∈ r ++ '_' :: ys₁ := by
        simp
      rw [h.2] at this
      exact hy₂ this
    | cons b s =>
      simp only [List.cons_append, List.cons.injEq] at h
      obtain ⟨hr, hs⟩ := ih s h.2
      exact ⟨by rw [h.1, hr], hs⟩

theorem mkCacheKey_inj (u₁ u₂ : String) (t₁ t₂ : Nat)
    (h : mkCacheKey u₁ t₁ = mkCacheKey u₂ t₂) : u₁ = u₂ ∧ t₁ = t₂ := by
  have hdata : u₁.data ++ '_' :: (natStr t₁).data = u₂.data ++ '_' :: (natStr t₂).data := by
    have := congrArg String.data h
    simpa [mkCacheKey, String.data_append] using this
  obtain ⟨hu, ht⟩ := append_underscore_inj _ _ _ _
    (natStr_no_underscore t₁) (natStr_no_underscore t₂) hdata
  exact ⟨String.ext hu, natStr_inj _ _ (String.ext ht)⟩

/-!
Catalog Client (`class NeteaseMusicAPI`, main.py 22-77).  HTTP transport is
modelled by oracles; `Except.error ()` stands for `r.raise_for_status()`
raising on a non-success response (or any transport failure), the `Except.ok`
payload for the parsed JSON body.
-/

/-- A song record as used by the search path (fields read in main.py
367-372 and 393-394). -/
structure Song where
  id : Nat
  name : String
  artists : List String
  album : String
  duration : Nat
deriving DecidableEq, Repr

/-- A song-detail record (fields read in main.py 409-413). -/
structure SongDetail where
  name : String
  ar : List String
  albumName : String
  picUrl : String
  dt : Nat
deriving DecidableEq, Repr

/-- `search_songs` result extraction (main.py 39):
`data.get("result", {}).get("songs", [])`.  The outer `Option` is presence
of the `"result"` key, the inner one presence of `"songs"`. -/
def search_songs_of_response (result? : Option (Option (List Song))) : List Song :=
  match result? with
  | none => []
  | some songs? => songs?.getD []

/-- `get_song_details` result extraction (main.py 47-48):
`songs = data.get("songs", []); return songs[0] if songs else None`. -/
def get_song_details_of_response (songs? : Option (List SongDetail)) : Option SongDetail :=
  match songs?.getD [] with
  | [] => none
  | s :: _ => some s

/-- One entry of the `"data"` list of `/song/url/v1`; `url` is the
`audio_info.get("url")` field (absent key modelled as `none`). -/
structure AudioInfo where
  url : Option String
deriving DecidableEq, Repr

/-- `list(dict.fromkeys(l))` (main.py 54): de-duplicate keeping the first
occurrence of each element, preserving order. -/
def dedupFirstAux : List String → List String → List String
  | _, [] => []
  | seen, a :: l =>
    if a ∈ seen then dedupFirstAux seen l else a :: dedupFirstAux (a :: seen) l

def dedupFirst (l : List String) : List String := dedupFirstAux [] l

/-- `qualities_to_try = list(dict.fromkeys([quality, "exhigh", "higher",
"standard"]))` (main.py 54). -/
def qualities_to_try (quality : String) : List String :=
  dedupFirst [quality, "exhigh", "higher", "standard"]

/-- The URL a single tier's parsed response yields: the head of the
`"data"` list, if its `"url"` field is truthy (main.py 63-67). -/
def tierYield (dataList : List AudioInfo) : Option String :=
  match dataList with
  | [] => none
  | info :: _ =>
    match info.url with
    | some u => if u ≠ "" then some u else none
    | none => none

/-- The tier loop of `get_audio_url` (main.py 55-68), over an explicit list
of quality tiers.  `fetch q` is the parsed response of the per-tier HTTP
request; `Except.error ()` is `raise_for_status()` raising. -/
def get_audio_url_go (fetch : String → Except Unit (List AudioInfo)) :
    List String → Except Unit (Option String)
  | [] => .ok none
  | q :: rest =>
    match fetch q with
    | .error e => .error e
    | .ok dataList =>
      match dataList with
      | [] => get_audio_url_go fetch rest
      | info :: _ =>
        match info.url with
        | some u => if u ≠ "" then .ok (some u) else get_audio_url_go fetch rest
        | none => get_audio_url_go fetch rest

/-- `get_audio_url(song_id, quality)` (main.py 50-68), with the per-tier
HTTP exchange abstracted into `fetch`. -/
def get_audio_url (fetch : String → Except Unit (List AudioInfo)) (quality : String) :
    Except Unit (Option String) :=
  get_audio_url_go fetch (qualities_to_try quality)

theorem qualities_to_try_eq (q : String) :
    qualities_to_try q =
      q :: (["exhigh", "higher", "standard"].filter fun x => decide (x ≠ q)) := by
  have dEH : ("higher" : String) ≠ "exhigh" := by decide
  have dES : ("standard" : String) ≠ "exhigh" := by decide
  have dHS : ("standard" : String) ≠ "higher" := by decide
  by_cases h1 : "exhigh" = q
  · subst h1; rfl
  · by_cases h2 : "higher" = q
    · subst h2; rfl
    · by_cases h3 : "standard" = q
      · subst h3; rfl
      · show dedupFirstAux [] [q, "exhigh", "higher", "standard"] = _
        rw [dedupFirstAux, if_neg (List.not_mem_nil q)]
        rw [dedupFirstAux, if_neg (by simp [h1])]
        rw [dedupFirstAux, if_neg (by simp [h2, dEH])]
        rw [dedupFirstAux, if_neg (by simp [h3, dES, dHS])]
        rw [dedupFirstAux]
        simp [List.filter_cons, h1, h2, h3]

theorem qualities_to_try_nodup (q : String) : (qualities_to_try q).Nodup := by
  rw [qualities_to_try_eq]
  refine List.nodup_cons.2 ⟨?_, ?_⟩
  · intro hmem
    rcases List.mem_filter.1 hmem with ⟨_, hq⟩
    simp at hq
  · exact List.Nodup.filter _ (by decide)

theorem get_audio_url_go_ok (fetch : String → Except Unit (List AudioInfo))
    (resp : String → List AudioInfo) (l : List String)
    (h : ∀ q ∈ l, fetch q = .ok (resp q)) :
    get_audio_url_go fetch l = .ok (l.findSome? fun q => tierYield (resp q)) := by
  induction l with
  | nil => rfl
  | cons q rest ih =>
    have hq := h q (List.mem_cons_self q rest)
    have hrest := ih fun x hx => h x (List.mem_cons_of_mem _ hx)
    rw [get_audio_url_go, hq, List.findSome?]
    cases hr : resp q with
    | nil => simpa [tierYield, hr] using hrest
    | cons info tl =>
      cases hu : info.url with
      | none => simpa [tierYield, hr, hu] using hrest
      | some u =>
        by_cases hne : u = ""
        · simpa [tierYield, hr, hu, hne] using hrest
        · simp [tierYield, hr, hu, hne]

theorem get_audio_url_go_error (fetch : String → Except Unit (List AudioInfo))
    (l₁ : List String) (q' : String) (l₂ : List String)
    (h₁ : ∀ q ∈ l₁, ∃ dl, fetch q = .ok dl ∧ tierYield dl = none)
    (h₂ : fetch q' = .error ()) :
    get_audio_url_go fetch (l₁ ++ q' :: l₂) = .error () := by
  induction l₁ with
  | nil => simp [get_audio_url_go, h₂]
  | cons q rest ih =>
    obtain ⟨dl, hdl, hy⟩ := h₁ q (List.mem_cons_self q rest)
    have hrest := ih fun x hx => h₁ x (List.mem_cons_of_mem _ hx)
    rw [List.cons_append, get_audio_url_go, hdl]
    cases hd : dl with
    | nil => simpa using hrest
    | cons info tl =>
      rw [hd] at hy
      cases hu : info.url with
      | none => simpa [hu] using hrest
      | some u =>
        rw [tierYield, hu] at hy
        by_cases hne : u = ""
        · simpa [hu, hne] using hrest
        · simp [hne] at hy

/-!
Orchestrator state (`class Main`, main.py 81-443).  The two shared dicts
are the whole mutable state the claims are about.  Handlers are embedded as
functions from state (plus inputs and API oracles) to a new state and an
ordered trace of observable actions; the trace order follows the statement
order of the Python source.
-/

/-- One `waiting_users` record: `{"key": cache_key, "expire": timestamp}`
(main.py 376). -/
structure UserSession where
  key : String
  expire : Nat
deriving DecidableEq, Repr

/-- The plugin's shared mutable state (main.py 125-126). -/
structure PluginState where
  waiting_users : List (String × UserSession)
  song_cache : List (String × List Song)
deriving DecidableEq, Repr

/-- Outbound user-facing messages, by template (main.py 109-119); the
payload is the value interpolated into the template. -/
inductive Msg where
  | apiError
  | noResults (keyword : String)
  | searchResults (count : Nat)
  | cacheExpired
  | invalidSelection (max : Nat)
  | songDetail (num : Nat)
  | noAudioUrl
  | playError
deriving DecidableEq, Repr

/-- Observable steps of a handler, in source statement order. -/
inductive Action where
  | sendMsg (m : Msg)
  | sendAudio (url : String)
  | removeWaiting (user_key : String)
  | removeCache (cache_key : String)
  | apiDetail (song_id : Nat)
  | apiAudio (song_id : Nat)
  | apiImage (url : String)
deriving DecidableEq, Repr

/-- Default `msg_no_results` template (main.py 112) rendered with the
keyword interpolated for the placeholder. -/
def renderNoResults (keyword : String) : String :=
  "对不起...天依不记得有「" ++ keyword ++ "」这首歌... T_T"

/-- A string contains another as a contiguous substring. -/
def containsSub (s sub : String) : Prop :=
  ∃ a b : String, s = a ++ sub ++ b

/-- `search_and_show` (main.py 330-376) with the API search call abstracted
into its outcome `searchResult` (`.error ()` = the `except` branch of main.py
343-346) and `now` the clock at lines 361/376.  The default `msg_searching`
template is empty, so no searching prompt is sent (main.py 338-339). -/
def search_and_show (searchResult : Except Unit (List Song)) (st : PluginState)
    (user_key : String) (keyword : String) (now : Nat) : PluginState × List Action :=
  match searchResult with
  | .error _ => (st, [.sendMsg .apiError])
  | .ok [] => (st, [.sendMsg (.noResults keyword)])
  | .ok (s :: rest) =>
    let songs := s :: rest
    -- main.py 356-359: drop the previous search's cache entry for this user,
    -- guarded by `if old_cache_key and old_cache_key in self.song_cache`
    -- (a falsy — empty — old key is not deleted)
    let st₁ : PluginState :=
      match dictGet user_key st.waiting_users with
      | some sess =>
        if sess.key ≠ "" ∧ (dictGet sess.key st.song_cache).isSome then
          { st with song_cache := dictErase sess.key st.song_cache }
        else st
      | none => st
    let cache_key := mkCacheKey user_key now
    let st₂ : PluginState := { st₁ with song_cache := dictInsert cache_key songs st₁.song_cache }
    let st₃ : PluginState :=
      { st₂ with waiting_users := dictInsert user_key ⟨cache_key, now + 60⟩ st₂.waiting_users }
    (st₃, [.sendMsg (.searchResults songs.length)])

/-- The API oracle for the playback path: outcomes of
`get_song_details` and `get_audio_url` (a raised exception is `.error ()`,
a normal return is `.ok`), and of `download_image` (which returns `None`
rather than raising on a non-200 status, main.py 70-77). -/
structure PlayApi where
  detail : Nat → Except Unit (Option SongDetail)
  audio : Nat → Except Unit (Option String)
  image : String → Option (List Nat)

/-- `play_selected_song` (main.py 378-420) plus `_send_song_messages`
(main.py 422-443), as state plus action trace. -/
def play_selected_song (api : PlayApi) (st : PluginState) (cache_key : String)
    (num : Nat) : PluginState × List Action :=
  match dictGet cache_key st.song_cache with
  | none => (st, [.sendMsg .cacheExpired])
  | some [] => (st, [.sendMsg .cacheExpired])
  | some (s₀ :: tl) =>
    let songs := s₀ :: tl
    if h : 1 ≤ num ∧ num ≤ songs.length then
      let song := songs.get ⟨num - 1, by omega⟩
      -- main.py 396-397: the cache entry is deleted before the API calls
      let st₁ : PluginState := { st with song_cache := dictErase cache_key st.song_cache }
      match api.detail song.id with
      | .error _ =>
        (st₁, [.removeCache cache_key, .apiDetail song.id, .sendMsg .playError])
      | .ok none =>
        -- `raise ValueError(...)` (main.py 402), caught by the same handler
        (st₁, [.removeCache cache_key, .apiDetail song.id, .sendMsg .playError])
      | .ok (some det) =>
        match api.audio song.id with
        | .error _ =>
          (st₁, [.removeCache cache_key, .apiDetail song.id, .apiAudio song.id,
                 .sendMsg .playError])
        | .ok none =>
          (st₁, [.removeCache cache_key, .apiDetail song.id, .apiAudio song.id,
                 .sendMsg .noAudioUrl])
        | .ok (some url) =>
          (st₁, [.removeCache cache_key, .apiDetail song.id, .apiAudio song.id,
                 .apiImage det.picUrl, .sendMsg (.songDetail num), .sendAudio url])
    else
      (st, [.sendMsg (.invalidSelection songs.length)])

/-- `number_selection_handler` (main.py 279-326): the numeric-reply path.
The inbound text matched `^\d+$`, so the parsed number is a `Nat` (the
`ValueError` branch of main.py 299-302 is unreachable for such input).
`now` is `time.time()` at line 289. -/
def number_selection_handler (api : PlayApi) (st : PluginState) (user_key : String)
    (now : Nat) (num : Nat) : PluginState × List Action :=
  match dictGet user_key st.waiting_users with
  | none => (st, [])
  | some sess =>
    if now > sess.expire then
      -- main.py 289-297: stale-session path
      let stW : PluginState := { st with waiting_users := dictErase user_key st.waiting_users }
      if sess.key ≠ "" ∧ (dictGet sess.key st.song_cache).isSome then
        ({ stW with song_cache := dictErase sess.key stW.song_cache },
         [.sendMsg .cacheExpired, .removeWaiting user_key, .removeCache sess.key])
      else
        (stW, [.sendMsg .cacheExpired, .removeWaiting user_key])
    else
      match dictGet sess.key st.song_cache with
      | none =>
        -- main.py 308-313: cache lost
        ({ st with waiting_users := dictErase user_key st.waiting_users },
         [.sendMsg .cacheExpired, .removeWaiting user_key])
      | some [] =>
        -- `if not songs` is also taken on an empty list
        ({ st with waiting_users := dictErase user_key st.waiting_users },
         [.sendMsg .cacheExpired, .removeWaiting user_key])
      | some (s₀ :: tl) =>
        let songs := s₀ :: tl
        if 1 ≤ num ∧ num ≤ songs.length then
          -- main.py 321-326: play first, then drop the waiting entry
          let res := play_selected_song api st sess.key num
          ({ res.1 with waiting_users := dictErase user_key res.1.waiting_users },
           res.2 ++ [.removeWaiting user_key])
        else
          (st, [.sendMsg (.invalidSelection songs.length)])

/-- One iteration of `_periodic_cleanup` (main.py 214-231): collect the
expired `(user_key, cache_key)` pairs, then delete each from both dicts. -/
def cleanupOnce (st : PluginState) (now : Nat) : PluginState :=
  let expired := (st.waiting_users.filter fun p => decide (p.2.expire < now)).map
    fun p => (p.1, p.2.key)
  expired.foldl
    (fun acc pr =>
      { waiting_users := dictErase pr.1 acc.waiting_users,
        song_cache := dictErase pr.2 acc.song_cache })
    st

/-!  Helper lemmas about the handlers, shared by several claims.  -/

theorem dictWF_countP_le_one {β : Type} (k : String) (l : List (String × β))
    (h : dictWF l) : (l.countP fun p => p.1 == k) ≤ 1 := by
  have hcount : (l.countP fun p => p.1 == k) = (l.map Prod.fst).count k := by
    rw [List.count, List.countP_map]
    rfl
  rw [hcount]
  exact List.nodup_iff_count_le_one.1 h k

/-- Out-of-range numeric reply: the handler emits the invalid-selection
message with the true result-set size and changes nothing. -/
theorem handler_invalid_eq (api : PlayApi) (st : PluginState) (user_key : String)
    (sess : UserSession) (songs : List Song) (now num : Nat)
    (hsess : dictGet user_key st.waiting_users = some sess)
    (hexp : ¬ now > sess.expire)
    (hsongs : dictGet sess.key st.song_cache = some songs)
    (hne : songs ≠ [])
    (hout : ¬ (1 ≤ num ∧ num ≤ songs.length)) :
    number_selection_handler api st user_key now num =
      (st, [.sendMsg (.invalidSelection songs.length)]) := by
  match songs, hne, hsongs, hout with
  | s₀ :: tl, _, hsongs, hout =>
    simp only [number_selection_handler, hsess, hsongs]
    rw [if_neg hexp, if_neg hout]

/-- Lookup in `waiting_users` is unchanged by the cleanup fold when the key
is not among the expired ones. -/
theorem foldl_erase_waiting_get (ps : List (String × String)) (st : PluginState)
    (k : String) (hk : k ∉ ps.map Prod.fst) :
    dictGet k ((ps.foldl
      (fun acc pr =>
        { waiting_users := dictErase pr.1 acc.waiting_users,
          song_cache := dictErase pr.2 acc.song_cache })
      st).waiting_users) = dictGet k st.waiting_users := by
  induction ps generalizing st with
  | nil => rfl
  | cons pr rest ih =>
    have hne : k ≠ pr.1 := by
      intro hEq
      exact hk (by simp [hEq])
    have hk' : k ∉ rest.map Prod.fst := fun hc => hk (List.mem_cons_of_mem _ hc)
    rw [List.foldl_cons, ih _ hk']
    exact dictGet_erase_ne pr.1 k st.waiting_users hne

/-!  Claims  -/

/-- C2: for an unexpired pending selection over `N` cached songs, a numeric
reply outside `[1, N]` makes the handler emit the invalid-selection message
whose bound is `N` — the true current result-set size, `len(songs)`, not any
configured limit — and return with both dicts untouched, so the user is
still awaiting selection and can retry. -/
theorem invalid_selection_spec (api : PlayApi) (st : PluginState) (user_key : String)
    (sess : UserSession) (songs : List Song) (now num : Nat)
    (hsess : dictGet user_key st.waiting_users = some sess)
    (hexp : ¬ now > sess.expire)
    (hsongs : dictGet sess.key st.song_cache = some songs)
    (hne : songs ≠ [])
    (hout : ¬ (1 ≤ num ∧ num ≤ songs.length)) :
    number_selection_handler api st user_key now num =
      (st, [.sendMsg (.invalidSelection songs.length)]) :=
  handler_invalid_eq api st user_key sess songs now num hsess hexp hsongs hne hout

theorem invalid_selection_spec_witness :
    number_selection_handler
      ⟨fun _ => .error (), fun _ => .error (), fun _ => none⟩
      ⟨[("s_1", ⟨"s_1_50", 200⟩)], [("s_1_50", [⟨1, "A", ["x"], "al", 1000⟩, ⟨2, "B", ["y"], "al", 2000⟩])]⟩
      "s_1" 150 5 =
      (⟨[("s_1", ⟨"s_1_50", 200⟩)], [("s_1_50", [⟨1, "A", ["x"], "al", 1000⟩, ⟨2, "B", ["y"], "al", 2000⟩])]⟩,
       [.sendMsg (.invalidSelection 2)]) :=
  invalid_selection_spec
    ⟨fun _ => .error (), fun _ => .error (), fun _ => none⟩
    ⟨[("s_1", ⟨"s_1_50", 200⟩)], [("s_1_50", [⟨1, "A", ["x"], "al", 1000⟩, ⟨2, "B", ["y"], "al", 2000⟩])]⟩
    "s_1" ⟨"s_1_50", 200⟩
    [⟨1, "A", ["x"], "al", 1000⟩, ⟨2, "B", ["y"], "al", 2000⟩] 150 5
    rfl (by decide) rfl (by decide) (by decide)

/-- C4: a numeric reply after `expiresAt` yields the stale-session message
first and removes both the pending selection and its result set, so both
subsequent lookups return absent; and a pending selection whose result set
is already missing is handled the same way (message plus removal of the
pending selection), the handler being a total function either way. -/
theorem stale_numeric_reply_spec :
    (∀ (api : PlayApi) (st : PluginState) (user_key : String) (sess : UserSession)
        (now num : Nat),
      dictGet user_key st.waiting_users = some sess →
      now > sess.expire →
      sess.key ≠ "" →
      dictGet user_key (number_selection_handler api st user_key now num).1.waiting_users = none ∧
      dictGet sess.key (number_selection_handler api st user_key now num).1.song_cache = none ∧
      (number_selection_handler api st user_key now num).2.head? = some (.sendMsg .cacheExpired)) ∧
    (∀ (api : PlayApi) (st : PluginState) (user_key : String) (sess : UserSession)
        (now num : Nat),
      dictGet user_key st.waiting_users = some sess →
      ¬ now > sess.expire →
      dictGet sess.key st.song_cache = none →
      number_selection_handler api st user_key now num =
        ({ st with waiting_users := dictErase user_key st.waiting_users },
         [.sendMsg .cacheExpired, .removeWaiting user_key])) := by
  constructor
  · intro api st user_key sess now num hsess hexp hkey
    simp only [number_selection_handler, hsess]
    rw [if_pos hexp]
    by_cases hc : (dictGet sess.key st.song_cache).isSome = true
    · rw [if_pos ⟨hkey, hc⟩]
      exact ⟨dictGet_erase_self _ _, dictGet_erase_self _ _, rfl⟩
    · rw [if_neg (fun hh => hc hh.2)]
      refine ⟨dictGet_erase_self _ _, ?_, rfl⟩
      cases h : dictGet sess.key st.song_cache with
      | none => rfl
      | some v => exact absurd (by rw [h]; rfl : (dictGet sess.key st.song_cache).isSome = true) hc
  · intro api st user_key sess now num hsess hexp hnone
    simp only [number_selection_handler, hsess, hnone]
    rw [if_neg hexp]

theorem stale_numeric_reply_spec_witness :
    (dictGet "s_1" (number_selection_handler
        ⟨fun _ => .error (), fun _ => .error (), fun _ => none⟩
        ⟨[("s_1", ⟨"s_1_50", 200⟩)], [("s_1_50", [⟨1, "A", ["x"], "al", 1000⟩])]⟩
        "s_1" 300 1).1.waiting_users = none ∧
     dictGet "s_1_50" (number_selection_handler
        ⟨fun _ => .error (), fun _ => .error (), fun _ => none⟩
        ⟨[("s_1", ⟨"s_1_50", 200⟩)], [("s_1_50", [⟨1, "A", ["x"], "al", 1000⟩])]⟩
        "s_1" 300 1).1.song_cache = none ∧
     (number_selection_handler
        ⟨fun _ => .error (), fun _ => .error (), fun _ => none⟩
        ⟨[("s_1", ⟨"s_1_50", 200⟩)], [("s_1_50", [⟨1, "A", ["x"], "al", 1000⟩])]⟩
        "s_1" 300 1).2.head? = some (.sendMsg .cacheExpired)) ∧
    (number_selection_handler
        ⟨fun _ => .error (), fun _ => .error (), fun _ => none⟩
        ⟨[("s_2", ⟨"s_2_50", 200⟩)], []⟩ "s_2" 100 1 =
      (⟨dictErase "s_2" [("s_2", ⟨"s_2_50", 200⟩)], []⟩,
       [.sendMsg .cacheExpired, .removeWaiting "s_2"])) :=
  ⟨stale_numeric_reply_spec.1
      ⟨fun _ => .error (), fun _ => .error (), fun _ => none⟩
      ⟨[("s_1", ⟨"s_1_50", 200⟩)], [("s_1_50", [⟨1, "A", ["x"], "al", 1000⟩])]⟩
      "s_1" ⟨"s_1_50", 200⟩ 300 1 rfl (by decide) (by decide),
   stale_numeric_reply_spec.2
      ⟨fun _ => .error (), fun _ => .error (), fun _ => none⟩
      ⟨[("s_2", ⟨"s_2_50", 200⟩)], []⟩ "s_2" ⟨"s_2_50", 200⟩ 100 1 rfl (by decide) rfl⟩

/-- C10: the two expiry comparisons are strict in opposite directions: the
numeric-reply handler treats a reply at `now = expiresAt` as still valid
(staleness needs `now > expiresAt`, main.py 289), and one sweep iteration
removes only entries with `expire < now` (main.py 222), so an entry whose
`expiresAt` equals the observation instant survives both checks. -/
theorem expiry_boundary_spec :
    (∀ (api : PlayApi) (st : PluginState) (user_key : String) (sess : UserSession)
        (songs : List Song) (num : Nat),
      dictGet user_key st.waiting_users = some sess →
      dictGet sess.key st.song_cache = some songs →
      songs ≠ [] →
      ¬ (1 ≤ num ∧ num ≤ songs.length) →
      number_selection_handler api st user_key sess.expire num =
        (st, [.sendMsg (.invalidSelection songs.length)])) ∧
    (∀ (st : PluginState) (now : Nat) (user_key : String) (sess : UserSession),
      dictWF st.waiting_users →
      dictGet user_key st.waiting_users = some sess →
      ¬ sess.expire < now →
      dictGet user_key (cleanupOnce st now).waiting_users = some sess) := by
  constructor
  · intro api st user_key sess songs num hsess hsongs hne hout
    exact handler_invalid_eq api st user_key sess songs sess.expire num hsess
      (lt_irrefl _) hsongs hne hout
  · intro st now user_key sess hwf hsess hle
    rw [cleanupOnce]
    refine (foldl_erase_waiting_get _ st user_key ?_).trans hsess
    intro hmem
    rw [List.map_map] at hmem
    rcases List.mem_map.1 hmem with ⟨p, hp, hpk⟩
    rcases List.mem_filter.1 hp with ⟨hpin, hpexp⟩
    have hpk' : p.1 = user_key := hpk
    have hget : dictGet user_key st.waiting_users = some p.2 := by
      rw [← hpk']
      exact mem_dictGet_of_wf p.1 p.2 st.waiting_users hwf (by rw [Prod.mk.eta]; exact hpin)
    rw [hsess] at hget
    have hps : p.2 = sess := by
      injection hget.symm
    exact hle (hps ▸ of_decide_eq_true hpexp)

theorem expiry_boundary_spec_witness :
    (number_selection_handler
        ⟨fun _ => .error (), fun _ => .error (), fun _ => none⟩
        ⟨[("s_1", ⟨"s_1_50", 200⟩)], [("s_1_50", [⟨1, "A", ["x"], "al", 1000⟩])]⟩
        "s_1" 200 9 =
      (⟨[("s_1", ⟨"s_1_50", 200⟩)], [("s_1_50", [⟨1, "A", ["x"], "al", 1000⟩])]⟩,
       [.sendMsg (.invalidSelection 1)])) ∧
    dictGet "s_3" (cleanupOnce ⟨[("s_3", ⟨"s_3_40", 100⟩)], []⟩ 100).waiting_users =
      some ⟨"s_3_40", 100⟩ :=
  ⟨expiry_boundary_spec.1
      ⟨fun _ => .error (), fun _ => .error (), fun _ => none⟩
      ⟨[("s_1", ⟨"s_1_50", 200⟩)], [("s_1_50", [⟨1, "A", ["x"], "al", 1000⟩])]⟩
      "s_1" ⟨"s_1_50", 200⟩ [⟨1, "A", ["x"], "al", 1000⟩] 9 rfl rfl (by decide) (by decide),
   expiry_boundary_spec.2 ⟨[("s_3", ⟨"s_3_40", 100⟩)], []⟩ 100 "s_3" ⟨"s_3_40", 100⟩
      (by decide) rfl (by decide)⟩

/-- C1: a second search by a user who already has a pending selection (with
its non-empty cache key, as every stored cache key is) first deletes the
prior result set from the cache (main.py 356-359) and then overwrites the
`waiting_users` entry with the new one (main.py 376): after the search the
user's entry holds the fresh cache key, the fresh key maps to the new songs
(even if it textually collides with the old one, since the old entry is
deleted before the new store), the old key is gone whenever it differs from
the fresh one, and the user still has at most one entry in
`waiting_users`. -/
theorem search_supersedes_spec (st : PluginState) (user_key keyword : String)
    (oldSess : UserSession) (songs : List Song) (now : Nat)
    (hwf : dictWF st.waiting_users)
    (hold : dictGet user_key st.waiting_users = some oldSess)
    (hkey : oldSess.key ≠ "")
    (hne : songs ≠ []) :
    dictGet user_key
        (search_and_show (.ok songs) st user_key keyword now).1.waiting_users =
      some ⟨mkCacheKey user_key now, now + 60⟩ ∧
    dictGet (mkCacheKey user_key now)
        (search_and_show (.ok songs) st user_key keyword now).1.song_cache = some songs ∧
    (oldSess.key ≠ mkCacheKey user_key now →
      dictGet oldSess.key
          (search_and_show (.ok songs) st user_key keyword now).1.song_cache = none) ∧
    dictWF (search_and_show (.ok songs) st user_key keyword now).1.waiting_users ∧
    ((search_and_show (.ok songs) st user_key keyword now).1.waiting_users.countP
        fun p => p.1 == user_key) ≤ 1 := by
  match songs, hne with
  | s₀ :: tl, _ =>
    simp only [search_and_show, hold]
    have hwf' : dictWF (dictInsert user_key
        (⟨mkCacheKey user_key now, now + 60⟩ : UserSession) st.waiting_users) :=
      dictWF_insert _ _ _ hwf
    by_cases hc : (dictGet oldSess.key st.song_cache).isSome = true
    · rw [if_pos ⟨hkey, hc⟩]
      refine ⟨dictGet_insert_self _ _ _, dictGet_insert_self _ _ _, ?_, hwf',
        dictWF_countP_le_one user_key _ hwf'⟩
      intro hneq
      rw [dictGet_insert_ne _ _ _ _ hneq]
      exact dictGet_erase_self _ _
    · rw [if_neg (fun hh => hc hh.2)]
      refine ⟨dictGet_insert_self _ _ _, dictGet_insert_self _ _ _, ?_, hwf',
        dictWF_countP_le_one user_key _ hwf'⟩
      intro hneq
      rw [dictGet_insert_ne _ _ _ _ hneq]
      cases h : dictGet oldSess.key st.song_cache with
      | none => rfl
      | some v =>
        exact absurd (by rw [h]; rfl : (dictGet oldSess.key st.song_cache).isSome = true) hc

theorem search_supersedes_spec_witness :
    (mkCacheKey "s_1" 100 ≠ "s_1_50") ∧
    dictGet "s_1"
        (search_and_show (.ok [⟨2, "B", ["y"], "al", 2000⟩])
          ⟨[("s_1", ⟨"s_1_50", 110⟩)], [("s_1_50", [⟨1, "A", ["x"], "al", 1000⟩])]⟩
          "s_1" "Lemon" 100).1.waiting_users = some ⟨mkCacheKey "s_1" 100, 160⟩ ∧
    dictGet (mkCacheKey "s_1" 100)
        (search_and_show (.ok [⟨2, "B", ["y"], "al", 2000⟩])
          ⟨[("s_1", ⟨"s_1_50", 110⟩)], [("s_1_50", [⟨1, "A", ["x"], "al", 1000⟩])]⟩
          "s_1" "Lemon" 100).1.song_cache = some [⟨2, "B", ["y"], "al", 2000⟩] ∧
    dictGet "s_1_50"
        (search_and_show (.ok [⟨2, "B", ["y"], "al", 2000⟩])
          ⟨[("s_1", ⟨"s_1_50", 110⟩)], [("s_1_50", [⟨1, "A", ["x"], "al", 1000⟩])]⟩
          "s_1" "Lemon" 100).1.song_cache = none := by
  have h := search_supersedes_spec
    ⟨[("s_1", ⟨"s_1_50", 110⟩)], [("s_1_50", [⟨1, "A", ["x"], "al", 1000⟩])]⟩
    "s_1" "Lemon" ⟨"s_1_50", 110⟩ [⟨2, "B", ["y"], "al", 2000⟩] 100
    (by decide) rfl (by decide) (by decide)
  exact ⟨by decide, h.1, h.2.1, h.2.2.1 (by decide)⟩

/-- A concrete state with user `"u"` awaiting selection over one cached
song, for exercising the valid-selection path. -/
def stV : PluginState :=
  ⟨[("u", ⟨"u_50", 200⟩)], [("u_50", [⟨7, "A", ["x"], "al", 1000⟩])]⟩

/-- An API oracle whose delivery succeeds end to end. -/
def apiOk : PlayApi :=
  ⟨fun _ => .ok (some ⟨"A", ["x"], "al", "pic", 1000⟩),
   fun _ => .ok (some "http://a"),
   fun _ => none⟩

/-- An API oracle whose detail lookup raises. -/
def apiFail : PlayApi :=
  ⟨fun _ => .error (), fun _ => .error (), fun _ => none⟩

/-- C3 counterexample: on a valid selection the code removes the
`waiting_users` entry only *after* `play_selected_song` has finished
(main.py 322-326), so the removal of the PendingSelection does not precede
the delivery steps: in the concrete run below the `removeWaiting` action
(index 6) comes after the `apiDetail` action (index 1), refuting the
claimed "removed ... before song resolution and delivery begin" ordering. -/
theorem selection_order_cex :
    ¬ (∀ i j : Nat,
        (number_selection_handler apiOk stV "u" 100 1).2.get? i =
          some (.removeWaiting "u") →
        (number_selection_handler apiOk stV "u" 100 1).2.get? j =
          some (.apiDetail 7) →
        i < j) := by
  intro hcl
  have h := hcl 6 1 (by decide) (by decide)
  omega

/-- C3 (amended): on a valid numeric reply the ResultSet is removed from
the cache before any delivery step begins (the trace starts with
`removeCache`), while the PendingSelection is removed only after delivery
completes (the trace ends with `removeWaiting` and no removal happens in
between); the final state contains neither entry, whether delivery succeeds
or fails, and if the detail lookup raises the only delivery output is the
play-error message — the consumed session is not restored. -/
theorem valid_selection_consumes (api : PlayApi) (st : PluginState)
    (user_key : String) (sess : UserSession) (songs : List Song) (now num : Nat)
    (hsess : dictGet user_key st.waiting_users = some sess)
    (hexp : ¬ now > sess.expire)
    (hsongs : dictGet sess.key st.song_cache = some songs)
    (hne : songs ≠ [])
    (hin : 1 ≤ num ∧ num ≤ songs.length) :
    dictGet user_key (number_selection_handler api st user_key now num).1.waiting_users = none ∧
    dictGet sess.key (number_selection_handler api st user_key now num).1.song_cache = none ∧
    (∃ delivery : List Action,
      (number_selection_handler api st user_key now num).2 =
        .removeCache sess.key :: (delivery ++ [.removeWaiting user_key]) ∧
      ∀ a ∈ delivery, (∀ k, a ≠ .removeCache k) ∧ (∀ k, a ≠ .removeWaiting k)) ∧
    ((∀ sid, api.detail sid = .error ()) →
      ∃ sid, (number_selection_handler api st user_key now num).2 =
        [.removeCache sess.key, .apiDetail sid, .sendMsg .playError,
         .removeWaiting user_key]) := by
  match songs, hne, hsongs, hin with
  | s₀ :: tl, _, hsongs, hin =>
    simp only [number_selection_handler, play_selected_song, hsess, hsongs]
    rw [if_neg hexp, if_pos hin, dif_pos hin]
    cases hd : api.detail ((s₀ :: tl).get ⟨num - 1, by omega⟩).id with
    | error e =>
      cases e
      refine ⟨dictGet_erase_self _ _, dictGet_erase_self _ _,
        ⟨[.apiDetail ((s₀ :: tl).get ⟨num - 1, by omega⟩).id, .sendMsg .playError],
          rfl, by simp⟩, fun _ => ⟨((s₀ :: tl).get ⟨num - 1, by omega⟩).id, rfl⟩⟩
    | ok det? =>
      have hcontra : (∀ sid, api.detail sid = .error ()) → False := by
        intro hall
        have hc := hall ((s₀ :: tl).get ⟨num - 1, by omega⟩).id
        rw [hd] at hc
        exact Except.noConfusion hc
      cases det? with
      | none =>
        exact ⟨dictGet_erase_self _ _, dictGet_erase_self _ _,
          ⟨[.apiDetail ((s₀ :: tl).get ⟨num - 1, by omega⟩).id, .sendMsg .playError],
            rfl, by simp⟩, fun hall => absurd hall hcontra⟩
      | some det =>
        cases ha : api.audio ((s₀ :: tl).get ⟨num - 1, by omega⟩).id with
        | error e =>
          cases e
          exact ⟨dictGet_erase_self _ _, dictGet_erase_self _ _,
            ⟨[.apiDetail ((s₀ :: tl).get ⟨num - 1, by omega⟩).id,
              .apiAudio ((s₀ :: tl).get ⟨num - 1, by omega⟩).id, .sendMsg .playError],
              rfl, by simp⟩, fun hall => absurd hall hcontra⟩
        | ok url? =>
          cases url? with
          | none =>
            exact ⟨dictGet_erase_self _ _, dictGet_erase_self _ _,
              ⟨[.apiDetail ((s₀ :: tl).get ⟨num - 1, by omega⟩).id,
                .apiAudio ((s₀ :: tl).get ⟨num - 1, by omega⟩).id, .sendMsg .noAudioUrl],
                rfl, by simp⟩, fun hall => absurd hall hcontra⟩
          | some url =>
            exact ⟨dictGet_erase_self _ _, dictGet_erase_self _ _,
              ⟨[.apiDetail ((s₀ :: tl).get ⟨num - 1, by omega⟩).id,
                .apiAudio ((s₀ :: tl).get ⟨num - 1, by omega⟩).id,
                .apiImage det.picUrl, .sendMsg (.songDetail num), .sendAudio url],
                rfl, by simp⟩, fun hall => absurd hall hcontra⟩

theorem valid_selection_consumes_witness :
    dictGet "u" (number_selection_handler apiFail stV "u" 100 1).1.waiting_users = none ∧
    dictGet "u_50" (number_selection_handler apiFail stV "u" 100 1).1.song_cache = none ∧
    (number_selection_handler apiFail stV "u" 100 1).2 =
      [.removeCache "u_50", .apiDetail 7, .sendMsg .playError, .removeWaiting "u"] := by
  have h := valid_selection_consumes apiFail stV "u" ⟨"u_50", 200⟩
    [⟨7, "A", ["x"], "al", 1000⟩] 100 1 rfl (by decide) rfl (by decide) (by decide)
  exact ⟨h.1, h.2.1, by decide⟩

/-- C5: over responses that never raise, `get_audio_url` walks the tier list
`quality :: (exhigh, higher, standard minus quality)` — the preferred tier
first, then the fixed ladder with the preferred quality de-duplicated — a
list without duplicates, so no tier is requested twice; it returns the
first non-empty URL yielded across the tiers in that order, and `none` when
every tier yields no URL. -/
theorem get_audio_url_spec (fetch : String → Except Unit (List AudioInfo))
    (resp : String → List AudioInfo) (quality : String)
    (h : ∀ q, fetch q = .ok (resp q)) :
    qualities_to_try quality =
      quality :: (["exhigh", "higher", "standard"].filter fun x => decide (x ≠ quality)) ∧
    (qualities_to_try quality).Nodup ∧
    get_audio_url fetch quality =
      .ok ((qualities_to_try quality).findSome? fun q => tierYield (resp q)) ∧
    ((∀ q ∈ qualities_to_try quality, tierYield (resp q) = none) →
      get_audio_url fetch quality = .ok none) := by
  refine ⟨qualities_to_try_eq quality, qualities_to_try_nodup quality, ?_, ?_⟩
  · exact get_audio_url_go_ok fetch resp _ fun q _ => h q
  · intro hall
    rw [get_audio_url, get_audio_url_go_ok fetch resp _ fun q _ => h q,
      List.findSome?_eq_none_iff.2 hall]

theorem get_audio_url_spec_witness :
    qualities_to_try "lossless" = ["lossless", "exhigh", "higher", "standard"] ∧
    get_audio_url
      (fun q => .ok (if q = "higher" then [⟨some "http://u"⟩] else []))
      "lossless" = .ok (some "http://u") := by
  have h := get_audio_url_spec
    (fun q => .ok (if q = "higher" then [⟨some "http://u"⟩] else []))
    (fun q => if q = "higher" then [⟨some "http://u"⟩] else [])
    "lossless" (fun _ => rfl)
  refine ⟨by rw [h.1]; decide, ?_⟩
  rw [h.2.2.1]
  rfl

/-- A fetch oracle where the preferred tier yields nothing, the `exhigh`
tier answers with a non-success HTTP status (`raise_for_status` raises) and
the `higher` tier would yield a URL. -/
def fetchTierFailure : String → Except Unit (List AudioInfo) := fun q =>
  if q = "exhigh" then .error ()
  else if q = "higher" then .ok [⟨some "http://u"⟩]
  else .ok []

/-- C6 counterexample: `r.raise_for_status()` (main.py 60) runs before the
per-tier emptiness check, so a non-success response on the `exhigh` tier
aborts the whole resolution with the raised error instead of falling
through to the `higher` tier that would have yielded a URL. -/
theorem tier_failure_fatal_cex :
    get_audio_url fetchTierFailure "standard" = .error () ∧
    get_audio_url fetchTierFailure "standard" ≠ .ok (some "http://u") := by
  constructor
  · rfl
  · intro h
    have h' : (Except.error () : Except Unit (Option String)) = Except.ok (some "http://u") := h
    exact Except.noConfusion h'

/-- C6 (amended): a non-success HTTP response on a quality tier *is* fatal:
if every tier before some tier `q'` responds successfully but yields no
URL, and the request for `q'` raises, the raised failure propagates out of
`get_audio_url` — the remaining tiers are not attempted and no URL is
returned. -/
theorem tier_failure_propagates (fetch : String → Except Unit (List AudioInfo))
    (quality q' : String) (l₁ l₂ : List String)
    (hsplit : qualities_to_try quality = l₁ ++ q' :: l₂)
    (h₁ : ∀ q ∈ l₁, ∃ dl, fetch q = .ok dl ∧ tierYield dl = none)
    (h₂ : fetch q' = .error ()) :
    get_audio_url fetch quality = .error () := by
  rw [get_audio_url, hsplit]
  exact get_audio_url_go_error fetch l₁ q' l₂ h₁ h₂

theorem tier_failure_propagates_witness :
    get_audio_url fetchTierFailure "standard" = Except.error () :=
  tier_failure_propagates fetchTierFailure "standard" "exhigh" ["standard"] ["higher"]
    (by decide)
    (fun q hq => by
      rw [List.mem_singleton] at hq
      subst hq
      exact ⟨[], rfl, rfl⟩)
    rfl

/-- A search invocation as the plugin sees one: the composite user identity,
the extracted keyword, and the integer-second clock read at main.py 361. -/
structure SearchInvocation where
  user_key : String
  keyword : String
  second : Nat
deriving DecidableEq, Repr

/-- The cache key assigned by a search invocation (main.py 361). -/
def cacheKeyOfInvocation (inv : SearchInvocation) : String :=
  mkCacheKey inv.user_key inv.second

/-- C7 counterexample: two distinct search invocations — same user, same
integer second, different keywords — are assigned the identical cacheKey,
so cacheKeys are not unique per invocation. -/
theorem cacheKey_collision_cex :
    (⟨"sess_42", "Lemon", 100⟩ : SearchInvocation) ≠ ⟨"sess_42", "Tell Your World", 100⟩ ∧
    cacheKeyOfInvocation ⟨"sess_42", "Lemon", 100⟩ =
      cacheKeyOfInvocation ⟨"sess_42", "Tell Your World", 100⟩ := by
  constructor
  · decide
  · decide

/-- C7 (amended): the cacheKey is derived from the user identity plus the
integer-second creation timestamp, and two invocations receive the same
cacheKey exactly when they share both — so invocations of distinct users,
or of the same user at distinct integer seconds, never collide, while two
searches by the same user within the same integer second always do. -/
theorem cacheKey_unique_per_user_second (inv₁ inv₂ : SearchInvocation) :
    cacheKeyOfInvocation inv₁ = cacheKeyOfInvocation inv₂ ↔
      inv₁.user_key = inv₂.user_key ∧ inv₁.second = inv₂.second := by
  constructor
  · intro h
    exact mkCacheKey_inj _ _ _ _ h
  · rintro ⟨h1, h2⟩
    rw [cacheKeyOfInvocation, cacheKeyOfInvocation, mkCacheKey, mkCacheKey, h1, h2]

theorem cacheKey_unique_per_user_second_witness :
    cacheKeyOfInvocation ⟨"sess_42", "Lemon", 100⟩ =
      cacheKeyOfInvocation ⟨"sess_42", "Senbonzakura", 100⟩ :=
  (cacheKey_unique_per_user_second ⟨"sess_42", "Lemon", 100⟩
    ⟨"sess_42", "Senbonzakura", 100⟩).2 ⟨rfl, rfl⟩

/-- C8: `get_song_details` returns absent exactly when the catalog response
carries an empty or missing `songs` list — as a total function it cannot
raise an index or key error there — and returns the first record whenever
at least one is present. -/
theorem get_song_details_spec (songs? : Option (List SongDetail)) :
    (get_song_details_of_response songs? = none ↔ songs?.getD [] = []) ∧
    (∀ s tl, songs? = some (s :: tl) → get_song_details_of_response songs? = some s) := by
  constructor
  · cases songs? with
    | none => simp [get_song_details_of_response]
    | some l => cases l <;> simp [get_song_details_of_response]
  · intro s tl h
    subst h
    rfl

theorem get_song_details_spec_witness :
    (get_song_details_of_response (some []) = none ↔
      (some ([] : List SongDetail)).getD [] = []) ∧
    get_song_details_of_response (some [⟨"A", ["x"], "al", "pic", 9⟩]) =
      some ⟨"A", ["x"], "al", "pic", 9⟩ :=
  ⟨(get_song_details_spec (some [])).1,
   (get_song_details_spec (some [⟨"A", ["x"], "al", "pic", 9⟩])).2
      ⟨"A", ["x"], "al", "pic", 9⟩ [] rfl⟩

/-- C9: a search whose upstream call succeeds with zero matches yields the
empty song list from response extraction (not an error), and the
orchestrator then emits exactly one message — the no-results message with
the literal keyword interpolated, as the rendered default template contains
the keyword as a substring — and returns the state unchanged: no
PendingSelection and no ResultSet is created, the user stays Idle. -/
theorem search_no_results_spec (songs? : Option (Option (List Song)))
    (st : PluginState) (user_key keyword : String) (now : Nat)
    (h : search_songs_of_response songs? = []) :
    search_and_show (.ok (search_songs_of_response songs?)) st user_key keyword now =
      (st, [.sendMsg (.noResults keyword)]) ∧
    containsSub (renderNoResults keyword) keyword := by
  rw [h]
  exact ⟨rfl, "对不起...天依不记得有「", "」这首歌... T_T", rfl⟩

theorem search_no_results_spec_witness :
    search_and_show (.ok (search_songs_of_response (some (some []))))
        ⟨[], []⟩ "s_1" "Lemon" 100 =
      (⟨[], []⟩, [.sendMsg (.noResults "Lemon")]) ∧
    containsSub (renderNoResults "Lemon") "Lemon" :=
  search_no_results_spec (some (some [])) ⟨[], []⟩ "s_1" "Lemon" 100 rfl

end Netease
